import Mathlib

/-!
Verification of the reqline parser (`src/parser/reqlineParser.js`) and the
request-dispatch header logic (`src/services/requestService.js`).

Strings are modelled as `List Char` (`Chars`); every JavaScript function is
embedded as an executable Lean definition mirroring the source line by line.
Errors thrown in JavaScript become `Except.error msg` with the exact message
text; `JSON.parse` (a host builtin) is modelled by an executable JSON decoder
over the JSON grammar.
-/

set_option maxRecDepth 4096

abbrev Chars := List Char

/-- Whitespace recognised by JavaScript `String.prototype.trim`, restricted to
the ASCII whitespace characters that can actually occur in reqline inputs. -/
def isWs (c : Char) : Bool :=
  c = ' ' || c = '\t' || c = '\n' || c = '\r'

/-- Left trim: drop leading whitespace. -/
def trimLeft (l : Chars) : Chars := l.dropWhile isWs

/-- JavaScript `s.trim()`: drop leading and trailing whitespace. -/
def trim (l : Chars) : Chars :=
  ((l.dropWhile isWs).reverse.dropWhile isWs).reverse

/-- `VALID_METHODS` from reqlineParser.js. -/
def VALID_METHODS : List Chars := ["GET".data, "POST".data]

/-- `REQUIRED_KEYWORDS` from reqlineParser.js. -/
def REQUIRED_KEYWORDS : List Chars := ["HTTP".data, "URL".data]

/-- `OPTIONAL_KEYWORDS` from reqlineParser.js. -/
def OPTIONAL_KEYWORDS : List Chars := ["HEADERS".data, "QUERY".data, "BODY".data]

/-- `ALL_KEYWORDS = [...REQUIRED_KEYWORDS, ...OPTIONAL_KEYWORDS]`. -/
def ALL_KEYWORDS : List Chars := REQUIRED_KEYWORDS ++ OPTIONAL_KEYWORDS

def emptyMsg : Chars := "Reqline statement cannot be empty".data
def pipeMsg : Chars := "Invalid spacing around pipe delimiter".data
def missingSectionsMsg : Chars := "Missing required HTTP and URL sections".data
def emptySegMsg : Chars := "Empty segment found".data
def missingSpaceMsg : Chars := "Missing space after keyword".data
def upperKwMsg : Chars := "Keywords must be uppercase".data
def invalidKwMsg (k : Chars) : Chars := "Invalid keyword: ".data ++ k
def multiSpaceMsg : Chars := "Multiple spaces found where single space expected".data
def upperMethodMsg : Chars := "HTTP method must be uppercase".data
def invalidMethodMsg : Chars := "Invalid HTTP method. Only GET and POST are supported".data
def urlEmptyMsg : Chars := "URL cannot be empty".data
def urlSchemeMsg : Chars := "URL must start with http:// or https://".data
def dupKwMsg (k : Chars) : Chars := "Duplicate keyword: ".data ++ k
def httpFirstMsg : Chars := "HTTP keyword must be first".data
def urlSecondMsg : Chars := "URL keyword must be second".data
def missingReqKwMsg (k : Chars) : Chars :=
  "Missing required ".data ++ k ++ " keyword".data
def jsonMsg (s : Chars) : Chars :=
  "Invalid JSON format in ".data ++ s ++ " section".data

/-- The character scan of `splitByPipe`: `prev` is the previously read
character (`none` at position 0), `current` the accumulator, `acc` the
segments pushed so far.  On `'|'` the immediately preceding and following
characters must both be a single `' '`; the pipe and the following space are
then skipped (`i += 2`). -/
def splitByPipeAux (prev : Option Char) (current : Chars) (acc : List Chars) :
    Chars → Except Chars (List Chars)
  | [] => .ok (if trim current = [] then acc else acc ++ [trim current])
  | '|' :: ' ' :: rest =>
      if prev = some ' ' then
        splitByPipeAux (some ' ') [] (acc ++ [trim current]) rest
      else
        .error pipeMsg
  | '|' :: _ => .error pipeMsg
  | c :: rest => splitByPipeAux (some c) (current ++ [c]) acc rest

/-- `splitByPipe` from reqlineParser.js: scan, then require at least two
segments. -/
def splitByPipe (reqline : Chars) : Except Chars (List Chars) :=
  match splitByPipeAux none [] [] reqline with
  | .error e => .error e
  | .ok segments =>
      if segments.length < 2 then .error missingSectionsMsg else .ok segments

/-- Split a list at its first `' '`, returning the parts before and after it
(the keyword/value split of `parseSegment`). -/
def splitAtFirstSpace : Chars → Option (Chars × Chars)
  | [] => none
  | c :: rest =>
      if c = ' ' then some ([], rest)
      else
        match splitAtFirstSpace rest with
        | none => none
        | some (k, v) => some (c :: k, v)

/-- JavaScript `keyword.toLowerCase()` on ASCII. -/
def lowerStr (l : Chars) : Chars := l.map Char.toLower

/-- JavaScript `value.toUpperCase()` on ASCII. -/
def upperStr (l : Chars) : Chars := l.map Char.toUpper

/-- `parseSegment` from reqlineParser.js (the unused `index` parameter is
dropped): trim, split keyword from value at the first space, validate the
keyword, the spacing, and the HTTP/URL values, and return the keyword with
the trimmed value. -/
def parseSegment (segment : Chars) : Except Chars (Chars × Chars) :=
  let trimmed := trim segment
  if trimmed = [] then .error emptySegMsg
  else
    match splitAtFirstSpace trimmed with
    | none => .error missingSpaceMsg
    | some (keyword, value) =>
      if keyword ∈ ALL_KEYWORDS then
        if value.head? = some ' ' then .error multiSpaceMsg
        else if keyword = "HTTP".data then
          if value ∈ VALID_METHODS then .ok (keyword, trim value)
          else if upperStr value = "GET".data ∨ upperStr value = "POST".data then
            .error upperMethodMsg
          else .error invalidMethodMsg
        else if keyword = "URL".data then
          if trim value = [] then .error urlEmptyMsg
          else if ("http://".data).isPrefixOf value ∨ ("https://".data).isPrefixOf value then
            .ok (keyword, trim value)
          else .error urlSchemeMsg
        else .ok (keyword, trim value)
      else
        if lowerStr keyword = "http".data ∨ lowerStr keyword = "url".data ∨
            lowerStr keyword = "headers".data ∨ lowerStr keyword = "query".data ∨
            lowerStr keyword = "body".data then
          .error upperKwMsg
        else .error (invalidKwMsg keyword)

/-- Association-list lookup modelling `parsedSegments[keyword]`. -/
def lookupKw : List (Chars × Chars) → Chars → Option Chars
  | [], _ => none
  | (k, v) :: rest, key => if k = key then some v else lookupKw rest key

/-- JavaScript truthiness of `parsedSegments[keyword]`: a present, non-empty
string. -/
def truthyStr (o : Option Chars) : Bool :=
  match o with
  | some v => !v.isEmpty
  | none => false

/-- The segment loop of `parseReqline`: classify each segment in order and
record it, failing on the first duplicate keyword. -/
def parseAllSegments : List Chars → List (Chars × Chars) →
    Except Chars (List (Chars × Chars))
  | [], pairs => .ok pairs
  | seg :: rest, pairs =>
      match parseSegment seg with
      | .error e => .error e
      | .ok (k, v) =>
          if truthyStr (lookupKw pairs k) then .error (dupKwMsg k)
          else parseAllSegments rest (pairs ++ [(k, v)])

/-- JavaScript `segment.split(' ')[0]`: the prefix before the first space. -/
def firstWord (l : Chars) : Chars := l.takeWhile (fun c => c ≠ ' ')

/-- `validateKeywordOrder` from reqlineParser.js. -/
def validateKeywordOrder (segments : List Chars) : Except Chars Unit :=
  match segments with
  | s0 :: s1 :: _ =>
      if firstWord s0 ≠ "HTTP".data then .error httpFirstMsg
      else if firstWord s1 ≠ "URL".data then
        if firstWord s1 ∈ ALL_KEYWORDS then .error (missingReqKwMsg "URL".data)
        else .error urlSecondMsg
      else .ok ()
  | _ => .error missingSectionsMsg

/-- `validateRequiredKeywords` from reqlineParser.js: iterate over
`REQUIRED_KEYWORDS` and fail on the first one that is absent (or falsy). -/
def validateRequiredKeywordsAux (pairs : List (Chars × Chars)) :
    List Chars → Except Chars Unit
  | [] => .ok ()
  | k :: rest =>
      if truthyStr (lookupKw pairs k) then validateRequiredKeywordsAux pairs rest
      else .error (missingReqKwMsg k)

def validateRequiredKeywords (pairs : List (Chars × Chars)) : Except Chars Unit :=
  validateRequiredKeywordsAux pairs REQUIRED_KEYWORDS

/-- JSON values as produced by `JSON.parse`; numbers keep their source
lexeme. -/
inductive Json where
  | null : Json
  | bool : Bool → Json
  | num : Chars → Json
  | str : Chars → Json
  | arr : List Json → Json
  | obj : List (Chars × Json) → Json

/-- `typeof parsed === 'object' && parsed !== null && !Array.isArray(parsed)`. -/
def Json.isObj : Json → Bool
  | .obj _ => true
  | _ => false

/-- Whitespace accepted between JSON tokens. -/
def jsonWs (c : Char) : Bool :=
  c = ' ' || c = '\t' || c = '\n' || c = '\r'

def skipJsonWs (l : Chars) : Chars := l.dropWhile jsonWs

def hexDigitVal (c : Char) : Option Nat :=
  if '0' ≤ c ∧ c ≤ '9' then some (c.toNat - '0'.toNat)
  else if 'a' ≤ c ∧ c ≤ 'f' then some (c.toNat - 'a'.toNat + 10)
  else if 'A' ≤ c ∧ c ≤ 'F' then some (c.toNat - 'A'.toNat + 10)
  else none

/-- Decode a JSON string body (the opening quote already consumed), handling
escape sequences; stops at the closing quote and returns the rest. -/
def parseJsonString : Chars → Option (Chars × Chars)
  | [] => none
  | '"' :: rest => some ([], rest)
  | '\\' :: e :: rest =>
      match e with
      | '"' => (parseJsonString rest).map (fun p => ('"' :: p.1, p.2))
      | '\\' => (parseJsonString rest).map (fun p => ('\\' :: p.1, p.2))
      | '/' => (parseJsonString rest).map (fun p => ('/' :: p.1, p.2))
      | 'b' => (parseJsonString rest).map (fun p => ('\x08' :: p.1, p.2))
      | 'f' => (parseJsonString rest).map (fun p => ('\x0c' :: p.1, p.2))
      | 'n' => (parseJsonString rest).map (fun p => ('\n' :: p.1, p.2))
      | 'r' => (parseJsonString rest).map (fun p => ('\r' :: p.1, p.2))
      | 't' => (parseJsonString rest).map (fun p => ('\t' :: p.1, p.2))
      | 'u' =>
          match rest with
          | a :: b :: c :: d :: rest2 =>
              match hexDigitVal a, hexDigitVal b, hexDigitVal c, hexDigitVal d with
              | some x, some y, some z, some w =>
                  let n := ((x * 16 + y) * 16 + z) * 16 + w
                  if n.isValidChar then
                    (parseJsonString rest2).map (fun p => (Char.ofNat n :: p.1, p.2))
                  else none
              | _, _, _, _ => none
          | _ => none
      | _ => none
  | c :: rest =>
      if c.toNat < 32 then none
      else (parseJsonString rest).map (fun p => (c :: p.1, p.2))

/-- Lex a JSON number (grammar `-? int frac? exp?`), returning its lexeme and
the rest of the input. -/
def parseJsonNumber (l : Chars) : Option (Chars × Chars) :=
  let (negPart, l1) := match l with
    | '-' :: rest => (['-'], rest)
    | _ => (([] : Chars), l)
  match l1 with
  | [] => none
  | c :: rest =>
    if c = '0' then
      let (intPart, l2) := (['0'], rest)
      jsonNumTail (negPart ++ intPart) l2
    else if c.isDigit then
      let ds := (c :: rest).takeWhile Char.isDigit
      let l2 := (c :: rest).dropWhile Char.isDigit
      jsonNumTail (negPart ++ ds) l2
    else none
where
  jsonNumTail (pre : Chars) (l2 : Chars) : Option (Chars × Chars) :=
    let (fracPart, l3) := match l2 with
      | '.' :: r =>
          let ds := r.takeWhile Char.isDigit
          if ds = [] then (none, l2) else (some ('.' :: ds), r.dropWhile Char.isDigit)
      | _ => (none, l2)
    match fracPart, l2 with
    | none, '.' :: _ => none
    | _, _ =>
      let mantissa := pre ++ fracPart.getD []
      match l3 with
      | e :: r3 =>
          if e = 'e' ∨ e = 'E' then
            let (sgn, r4) := match r3 with
              | '+' :: r => (['+'], r)
              | '-' :: r => (['-'], r)
              | _ => (([] : Chars), r3)
            let ds := r4.takeWhile Char.isDigit
            if ds = [] then none
            else some (mantissa ++ [e] ++ sgn ++ ds, r4.dropWhile Char.isDigit)
          else some (mantissa, l3)
      | [] => some (mantissa, l3)

mutual

/-- Decode one JSON value from the input (leading whitespace allowed),
returning it with the unconsumed rest. -/
def parseJsonValue : Nat → Chars → Option (Json × Chars)
  | 0, _ => none
  | fuel + 1, l =>
      match skipJsonWs l with
      | 'n' :: 'u' :: 'l' :: 'l' :: rest => some (.null, rest)
      | 't' :: 'r' :: 'u' :: 'e' :: rest => some (.bool true, rest)
      | 'f' :: 'a' :: 'l' :: 's' :: 'e' :: rest => some (.bool false, rest)
      | '"' :: rest => (parseJsonString rest).map (fun p => (.str p.1, p.2))
      | '\x5b' :: rest =>
          match skipJsonWs rest with
          | '\x5d' :: rest2 => some (.arr [], rest2)
          | other =>
              (parseJsonArrayItems fuel other).map (fun p => (.arr p.1, p.2))
      | '\x7b' :: rest =>
          match skipJsonWs rest with
          | '\x7d' :: rest2 => some (.obj [], rest2)
          | other =>
              (parseJsonObjectItems fuel other).map (fun p => (.obj p.1, p.2))
      | c :: rest =>
          if c = '-' ∨ c.isDigit then
            (parseJsonNumber (c :: rest)).map (fun p => (.num p.1, p.2))
          else none
      | [] => none

/-- Comma-separated JSON array items up to the closing bracket. -/
def parseJsonArrayItems : Nat → Chars → Option (List Json × Chars)
  | 0, _ => none
  | fuel + 1, l =>
      match parseJsonValue fuel l with
      | none => none
      | some (v, rest) =>
          match skipJsonWs rest with
          | ',' :: rest2 =>
              (parseJsonArrayItems fuel rest2).map (fun p => (v :: p.1, p.2))
          | '\x5d' :: rest2 => some ([v], rest2)
          | _ => none

/-- Comma-separated `"key": value` JSON object members up to the closing
brace. -/
def parseJsonObjectItems : Nat → Chars → Option (List (Chars × Json) × Chars)
  | 0, _ => none
  | fuel + 1, l =>
      match skipJsonWs l with
      | '"' :: rest =>
          match parseJsonString rest with
          | none => none
          | some (key, rest2) =>
              match skipJsonWs rest2 with
              | ':' :: rest3 =>
                  match parseJsonValue fuel rest3 with
                  | none => none
                  | some (v, rest4) =>
                      match skipJsonWs rest4 with
                      | ',' :: rest5 =>
                          (parseJsonObjectItems fuel rest5).map
                            (fun p => ((key, v) :: p.1, p.2))
                      | '\x7d' :: rest5 => some ([(key, v)], rest5)
                      | _ => none
              | _ => none
      | _ => none

end

/-- `JSON.parse`: decode one value and require only whitespace to follow. -/
def jsonParse (l : Chars) : Option Json :=
  match parseJsonValue (l.length + 1) l with
  | some (v, rest) => if skipJsonWs rest = [] then some v else none
  | none => none

/-- `parseJsonSection` from reqlineParser.js: `JSON.parse` the value and
require a top-level object; a decode failure and a wrong top-level shape both
yield the one section-named message. -/
def parseJsonSection (jsonString : Chars) (sectionName : Chars) : Except Chars Json :=
  match jsonParse jsonString with
  | some parsed =>
      if parsed.isObj then .ok parsed else .error (jsonMsg sectionName)
  | none => .error (jsonMsg sectionName)

/-- The optional-section step of `parseReqline`:
`if (parsedSegments[KW]) result.kw = parseJsonSection(parsedSegments[KW], KW)`,
with `{}` as the default. -/
def getSectionJson (pairs : List (Chars × Chars)) (kw : Chars) : Except Chars Json :=
  match lookupKw pairs kw with
  | some v => if v.isEmpty then .ok (.obj []) else parseJsonSection v kw
  | none => .ok (.obj [])

/-- The parser's output record. -/
structure ParsedRequest where
  method : Chars
  url : Chars
  headers : Json
  query : Json
  body : Json

/-- `parseReqline` from reqlineParser.js: empty check, segmentation, the
classification loop with duplicate detection, keyword order, required
keywords, then assembly with the three optional JSON sections. -/
def parseReqline (reqline : Chars) : Except Chars ParsedRequest :=
  if trim reqline = [] then .error emptyMsg
  else
    match splitByPipe reqline with
    | .error e => .error e
    | .ok segments =>
      match parseAllSegments segments [] with
      | .error e => .error e
      | .ok pairs =>
        match validateKeywordOrder segments with
        | .error e => .error e
        | .ok _ =>
          match validateRequiredKeywords pairs with
          | .error e => .error e
          | .ok _ =>
            match getSectionJson pairs ("HEADERS".data) with
            | .error e => .error e
            | .ok headers =>
              match getSectionJson pairs ("QUERY".data) with
              | .error e => .error e
              | .ok query =>
                match getSectionJson pairs ("BODY".data) with
                | .error e => .error e
                | .ok body =>
                  .ok { method := (lookupKw pairs ("HTTP".data)).getD []
                        url := (lookupKw pairs ("URL".data)).getD []
                        headers := headers
                        query := query
                        body := body }

/-- A JSON-section value is bad when its text fails to decode as JSON or
decodes to a top-level array, primitive, or `null` — i.e. anything but an
object. -/
def jsonSectionBad (v : Chars) : Prop :=
  jsonParse v = none ∨ ∃ j, jsonParse v = some j ∧ j.isObj = false

/-- JavaScript truthiness of a JSON number given its lexeme: truthy iff some
mantissa digit is non-zero. -/
def numLexTruthy (lex : Chars) : Bool :=
  (lex.takeWhile (fun c => c ≠ 'e' ∧ c ≠ 'E')).any (fun c => c.isDigit && c ≠ '0')

/-- JavaScript truthiness `Boolean(v)` of a JSON value: `null`, `false`, zero
and the empty string are falsy; arrays and objects are always truthy. -/
def jsTruthy : Json → Bool
  | .null => false
  | .bool b => b
  | .num lex => numLexTruthy lex
  | .str s => !s.isEmpty
  | .arr _ => true
  | .obj _ => true

/-- Property lookup on a parsed-JSON headers object. -/
def jsonLookup : List (Chars × Json) → Chars → Option Json
  | [], _ => none
  | (k, v) :: rest, key => if k = key then some v else jsonLookup rest key

/-- `headers[name]` is present and truthy. -/
def headerTruthy (headers : List (Chars × Json)) (name : Chars) : Bool :=
  match jsonLookup headers name with
  | some v => jsTruthy v
  | none => false

/-- JavaScript spread-update `{...headers, [k]: v}`: replace the value in
place when the key already exists, otherwise append the pair. -/
def setKey (l : List (Chars × Json)) (k : Chars) (v : Json) : List (Chars × Json) :=
  if l.any (fun p => p.1 = k) then
    l.map (fun p => if p.1 = k then (p.1, v) else p)
  else l ++ [(k, v)]

/-- Lines 15–33 of `executeRequest` in requestService.js: the headers of the
outgoing axios config.  A default `Content-Type: application/json` is added
exactly when the method is `POST`, the body object is non-empty, and neither
`headers['Content-Type']` nor `headers['content-type']` is truthy. -/
def axiosConfigHeaders (method : Chars) (headers : List (Chars × Json))
    (body : List (Chars × Json)) : List (Chars × Json) :=
  if method = "POST".data ∧ 0 < body.length then
    if !headerTruthy headers ("Content-Type".data) &&
        !headerTruthy headers ("content-type".data) then
      setKey headers ("Content-Type".data) (.str ("application/json".data))
    else headers
  else headers

/-- The spec's wording of content-type presence: the header name compared
case-insensitively (any casing of an existing content-type header counts). -/
def hasHeaderCI (headers : List (Chars × Json)) (name : Chars) : Bool :=
  headers.any (fun p => lowerStr p.1 = lowerStr name)

/-! ### Lemmas about `trim` -/

theorem trim_def (l : Chars) : trim l = (l.dropWhile isWs).rdropWhile isWs := rfl

theorem trim_eq_nil_iff {l : Chars} : trim l = [] ↔ ∀ c ∈ l, isWs c := by
  rw [trim_def, List.rdropWhile_eq_nil_iff]
  constructor
  · intro h c hc
    have hc2 : c ∈ List.takeWhile isWs l ++ List.dropWhile isWs l := by
      rw [List.takeWhile_append_dropWhile]
      exact hc
    rcases List.mem_append.mp hc2 with h1 | h2
    · exact List.mem_takeWhile_imp h1
    · exact h c h2
  · intro h c hc
    exact h c ((List.dropWhile_suffix isWs).subset hc)

theorem rdropWhile_getLast_not {p : Char → Bool} {y : Chars} {c : Char}
    (h : (y.rdropWhile p).getLast? = some c) : p c = false := by
  have hne : y.rdropWhile p ≠ [] := by
    intro hnil
    rw [hnil] at h
    cases h
  have hlast := List.rdropWhile_last_not p y hne
  rw [List.getLast?_eq_getLast_of_ne_nil hne] at h
  injection h with h2
  rw [← h2]
  simpa using hlast

theorem trim_getLast_not_ws {l : Chars} {c : Char} (h : (trim l).getLast? = some c) :
    isWs c = false := by
  rw [trim_def] at h
  exact rdropWhile_getLast_not h

theorem trim_head_not_ws {l : Chars} {c : Char} (h : (trim l).head? = some c) :
    isWs c = false := by
  obtain ⟨t, ht⟩ := List.rdropWhile_prefix isWs (l.dropWhile isWs)
  have hne : trim l ≠ [] := by
    intro hnil
    rw [hnil] at h
    cases h
  rw [trim_def] at hne h
  have hy : (l.dropWhile isWs).head? = some c := by
    rw [← ht, List.head?_append_of_ne_nil _ hne]
    exact h
  have hyne : l.dropWhile isWs ≠ [] := by
    intro hnil
    rw [hnil] at hy
    cases hy
  have := List.head_dropWhile_not isWs l hyne
  rw [List.head?_eq_head hyne] at hy
  injection hy with h2
  rw [← h2]
  exact this

theorem trim_trim (l : Chars) : trim (trim l) = trim l := by
  have hdw : List.dropWhile isWs (trim l) = trim l := by
    cases hl : trim l with
    | nil => rfl
    | cons a t =>
        have hc : isWs a = false := trim_head_not_ws (by rw [hl]; rfl : (trim l).head? = some a)
        rw [List.dropWhile_cons_of_neg (by simp [hc])]
  rw [trim_def (trim l), hdw, trim_def l, List.rdropWhile_idempotent]

/-! ### Distinguishing error messages -/

theorem ne_of_getElem? {l1 l2 : Chars} {n : Nat} {c1 c2 : Char}
    (h1 : l1[n]? = some c1) (h2 : l2[n]? = some c2) (hc : c1 ≠ c2) : l1 ≠ l2 := by
  intro h
  rw [h, h2] at h1
  injection h1 with h3
  exact hc h3.symm

theorem invalidKwMsg_ne_urlSecond (k : Chars) : invalidKwMsg k ≠ urlSecondMsg :=
  @ne_of_getElem? ((invalidKwMsg k)) _ 0 'I' _ rfl rfl (by decide)

theorem dupKwMsg_ne_urlSecond (k : Chars) : dupKwMsg k ≠ urlSecondMsg :=
  @ne_of_getElem? ((dupKwMsg k)) _ 0 'D' _ rfl rfl (by decide)

theorem invalidKwMsg_ne_urlEmpty (k : Chars) : invalidKwMsg k ≠ urlEmptyMsg :=
  @ne_of_getElem? ((invalidKwMsg k)) _ 0 'I' _ rfl rfl (by decide)

theorem dupKwMsg_ne_urlEmpty (k : Chars) : dupKwMsg k ≠ urlEmptyMsg :=
  @ne_of_getElem? ((dupKwMsg k)) _ 0 'D' _ rfl rfl (by decide)

theorem missingReqKwMsg_ne_urlEmpty (k : Chars) : missingReqKwMsg k ≠ urlEmptyMsg :=
  @ne_of_getElem? ((missingReqKwMsg k)) _ 0 'M' _ rfl rfl (by decide)

theorem missingReqKwMsg_ne_urlSecond (k : Chars) : missingReqKwMsg k ≠ urlSecondMsg :=
  @ne_of_getElem? ((missingReqKwMsg k)) _ 0 'M' _ rfl rfl (by decide)

theorem invalidKwMsg_ne_jsonMsg (k s : Chars) : invalidKwMsg k ≠ jsonMsg s :=
  @ne_of_getElem? ((invalidKwMsg k)) _ 8 'k' 'J' rfl rfl (by decide)

theorem dupKwMsg_ne_jsonMsg (k s : Chars) : dupKwMsg k ≠ jsonMsg s :=
  @ne_of_getElem? ((dupKwMsg k)) _ 0 'D' 'I' rfl rfl (by decide)

theorem missingReqKwMsg_ne_jsonMsg (k s : Chars) : missingReqKwMsg k ≠ jsonMsg s :=
  @ne_of_getElem? ((missingReqKwMsg k)) _ 0 'M' 'I' rfl rfl (by decide)

theorem emptyMsg_ne_jsonMsg (s : Chars) : emptyMsg ≠ jsonMsg s :=
  @ne_of_getElem? (emptyMsg) _ 0 'R' 'I' rfl rfl (by decide)

theorem pipeMsg_ne_jsonMsg (s : Chars) : pipeMsg ≠ jsonMsg s :=
  @ne_of_getElem? (pipeMsg) _ 8 's' 'J' rfl rfl (by decide)

theorem missingSectionsMsg_ne_jsonMsg (s : Chars) : missingSectionsMsg ≠ jsonMsg s :=
  @ne_of_getElem? (missingSectionsMsg) _ 0 'M' 'I' rfl rfl (by decide)

theorem emptySegMsg_ne_jsonMsg (s : Chars) : emptySegMsg ≠ jsonMsg s :=
  @ne_of_getElem? (emptySegMsg) _ 0 'E' 'I' rfl rfl (by decide)

theorem missingSpaceMsg_ne_jsonMsg (s : Chars) : missingSpaceMsg ≠ jsonMsg s :=
  @ne_of_getElem? (missingSpaceMsg) _ 0 'M' 'I' rfl rfl (by decide)

theorem upperKwMsg_ne_jsonMsg (s : Chars) : upperKwMsg ≠ jsonMsg s :=
  @ne_of_getElem? (upperKwMsg) _ 0 'K' 'I' rfl rfl (by decide)

theorem multiSpaceMsg_ne_jsonMsg (s : Chars) : multiSpaceMsg ≠ jsonMsg s :=
  @ne_of_getElem? (multiSpaceMsg) _ 0 'M' 'I' rfl rfl (by decide)

theorem upperMethodMsg_ne_jsonMsg (s : Chars) : upperMethodMsg ≠ jsonMsg s :=
  @ne_of_getElem? (upperMethodMsg) _ 8 'h' 'J' rfl rfl (by decide)

theorem invalidMethodMsg_ne_jsonMsg (s : Chars) : invalidMethodMsg ≠ jsonMsg s :=
  @ne_of_getElem? (invalidMethodMsg) _ 8 'H' 'J' rfl rfl (by decide)

theorem urlEmptyMsg_ne_jsonMsg (s : Chars) : urlEmptyMsg ≠ jsonMsg s :=
  @ne_of_getElem? (urlEmptyMsg) _ 0 'U' 'I' rfl rfl (by decide)

theorem urlSchemeMsg_ne_jsonMsg (s : Chars) : urlSchemeMsg ≠ jsonMsg s :=
  @ne_of_getElem? (urlSchemeMsg) _ 0 'U' 'I' rfl rfl (by decide)

theorem httpFirstMsg_ne_jsonMsg (s : Chars) : httpFirstMsg ≠ jsonMsg s :=
  @ne_of_getElem? (httpFirstMsg) _ 0 'H' 'I' rfl rfl (by decide)

theorem urlSecondMsg_ne_jsonMsg (s : Chars) : urlSecondMsg ≠ jsonMsg s :=
  @ne_of_getElem? (urlSecondMsg) _ 0 'U' 'I' rfl rfl (by decide)

theorem jsonMsg_inj {a b : Chars} (h : jsonMsg a = jsonMsg b) : a = b := by
  unfold jsonMsg at h
  rw [List.append_assoc, List.append_assoc] at h
  exact List.append_cancel_right (List.append_cancel_left h)

/-! ### Lemmas about `splitAtFirstSpace` -/

theorem splitAtFirstSpace_eq :
    ∀ {l k v : Chars}, splitAtFirstSpace l = some (k, v) →
      l = k ++ ' ' :: v ∧ ' ' ∉ k ∧ k = firstWord l := by
  intro l
  induction l with
  | nil => intro k v h; cases h
  | cons c rest ih =>
      intro k v h
      unfold splitAtFirstSpace at h
      by_cases hc : c = ' '
      · rw [if_pos hc] at h
        injection h with h2
        injection h2 with hk hv
        subst hk
        subst hv
        subst hc
        refine ⟨rfl, List.not_mem_nil _, ?_⟩
        unfold firstWord
        rw [List.takeWhile_cons_of_neg]
        simp
      · rw [if_neg hc] at h
        cases hsub : splitAtFirstSpace rest with
        | none => rw [hsub] at h; cases h
        | some p =>
            obtain ⟨k2, v2⟩ := p
            rw [hsub] at h
            injection h with h2
            injection h2 with hk hv
            obtain ⟨he, hm, hf⟩ := ih hsub
            subst hk
            subst hv
            refine ⟨by rw [List.cons_append, he], ?_, ?_⟩
            · intro hmem
              rcases List.mem_cons.mp hmem with h3 | h3
              · exact hc h3.symm
              · exact hm h3
            · unfold firstWord
              rw [List.takeWhile_cons_of_pos (by simp [hc])]
              rw [hf]
              rfl

theorem splitAtFirstSpace_append (k v : Chars) (hk : ' ' ∉ k) :
    splitAtFirstSpace (k ++ ' ' :: v) = some (k, v) := by
  induction k with
  | nil => rfl
  | cons c rest ih =>
      have hc : c ≠ ' ' := fun h => hk (h ▸ List.mem_cons_self c rest)
      have hrest : ' ' ∉ rest := fun h => hk (List.mem_cons_of_mem c h)
      rw [List.cons_append]
      simp only [splitAtFirstSpace]
      rw [if_neg hc, ih hrest]

theorem splitAtFirstSpace_none :
    ∀ {l : Chars}, splitAtFirstSpace l = none → ' ' ∉ l := by
  intro l
  induction l with
  | nil => intro _ h; cases h
  | cons c rest ih =>
      intro h hmem
      unfold splitAtFirstSpace at h
      by_cases hc : c = ' '
      · rw [if_pos hc] at h; cases h
      · rw [if_neg hc] at h
        cases hsub : splitAtFirstSpace rest with
        | none =>
            rcases List.mem_cons.mp hmem with h3 | h3
            · exact hc h3.symm
            · exact ih hsub h3
        | some p => rw [hsub] at h; obtain ⟨a, b⟩ := p; cases h

/-! ### Lemmas about `splitByPipe` -/

theorem splitByPipeAux_error_eq :
    ∀ (prev : Option Char) (current : Chars) (acc : List Chars) (l : Chars) (e : Chars),
      splitByPipeAux prev current acc l = .error e → e = pipeMsg := by
  intro prev current acc l
  induction prev, current, acc, l using splitByPipeAux.induct with
  | case1 prev current acc =>
      intro e h
      rw [splitByPipeAux.eq_1] at h
      exact Except.noConfusion h
  | case2 current acc rest ih =>
      intro e h
      rw [splitByPipeAux.eq_2, if_pos rfl] at h
      exact ih e h
  | case3 prev current acc rest hne =>
      intro e h
      rw [splitByPipeAux.eq_2, if_neg hne] at h
      injection h with h2
      exact h2.symm
  | case4 prev current acc tail hnotsp =>
      intro e h
      rw [splitByPipeAux.eq_3 _ _ _ _ hnotsp] at h
      injection h with h2
      exact h2.symm
  | case5 prev current acc c rest h1 h2 ih =>
      intro e h
      rw [splitByPipeAux.eq_4 _ _ _ _ _ h1 h2] at h
      exact ih e h

theorem splitByPipeAux_ok_trim :
    ∀ (prev : Option Char) (current : Chars) (acc : List Chars) (l : Chars),
      ∀ segs : List Chars, (∀ x ∈ acc, trim x = x) →
        splitByPipeAux prev current acc l = .ok segs → ∀ x ∈ segs, trim x = x := by
  intro prev current acc l
  induction prev, current, acc, l using splitByPipeAux.induct with
  | case1 prev current acc =>
      intro segs hacc h
      rw [splitByPipeAux.eq_1] at h
      injection h with h2
      subst h2
      by_cases htc : trim current = []
      · rw [if_pos htc]
        exact hacc
      · rw [if_neg htc]
        intro x hx
        rcases List.mem_append.mp hx with h3 | h3
        · exact hacc x h3
        · rw [List.mem_singleton.mp h3]
          exact trim_trim current
  | case2 current acc rest ih =>
      intro segs hacc h
      rw [splitByPipeAux.eq_2, if_pos rfl] at h
      refine ih segs ?_ h
      intro x hx
      rcases List.mem_append.mp hx with h3 | h3
      · exact hacc x h3
      · rw [List.mem_singleton.mp h3]
        exact trim_trim current
  | case3 prev current acc rest hne =>
      intro segs hacc h
      rw [splitByPipeAux.eq_2, if_neg hne] at h
      exact Except.noConfusion h
  | case4 prev current acc tail hnotsp =>
      intro segs hacc h
      rw [splitByPipeAux.eq_3 _ _ _ _ hnotsp] at h
      exact Except.noConfusion h
  | case5 prev current acc c rest h1 h2 ih =>
      intro segs hacc h
      rw [splitByPipeAux.eq_4 _ _ _ _ _ h1 h2] at h
      exact ih segs hacc h

theorem splitByPipeAux_all_ws :
    ∀ (prev : Option Char) (current : Chars) (acc : List Chars) (l : Chars),
      (∀ c ∈ l, isWs c) → (∀ c ∈ current, isWs c) →
      splitByPipeAux prev current acc l = .ok acc := by
  intro prev current acc l
  induction prev, current, acc, l using splitByPipeAux.induct with
  | case1 prev current acc =>
      intro _ hcur
      rw [splitByPipeAux.eq_1, if_pos (trim_eq_nil_iff.mpr hcur)]
  | case2 current acc rest ih =>
      intro hl _
      exact absurd (hl '|' (List.mem_cons_self _ _)) (by decide)
  | case3 prev current acc rest hne =>
      intro hl _
      exact absurd (hl '|' (List.mem_cons_self _ _)) (by decide)
  | case4 prev current acc tail hnotsp =>
      intro hl _
      exact absurd (hl '|' (List.mem_cons_self _ _)) (by decide)
  | case5 prev current acc c rest h1 h2 ih =>
      intro hl hcur
      rw [splitByPipeAux.eq_4 _ _ _ _ _ h1 h2]
      refine ih (fun d hd => hl d (List.mem_cons_of_mem c hd)) ?_
      intro d hd
      rcases List.mem_append.mp hd with h3 | h3
      · exact hcur d h3
      · rw [List.mem_singleton.mp h3]
        exact hl c (List.mem_cons_self _ _)

theorem splitByPipe_error_cases {s e : Chars} (h : splitByPipe s = .error e) :
    e = pipeMsg ∨ e = missingSectionsMsg := by
  unfold splitByPipe at h
  cases haux : splitByPipeAux none [] [] s with
  | error e2 =>
      rw [haux] at h
      dsimp only at h
      injection h with h2
      subst h2
      exact Or.inl (splitByPipeAux_error_eq none [] [] s e2 haux)
  | ok segs =>
      rw [haux] at h
      dsimp only at h
      by_cases hlen : segs.length < 2
      · rw [if_pos hlen] at h
        injection h with h2
        exact Or.inr h2.symm
      · rw [if_neg hlen] at h
        exact Except.noConfusion h

theorem splitByPipe_ok_elim {s : Chars} {segs : List Chars} (h : splitByPipe s = .ok segs) :
    2 ≤ segs.length ∧ splitByPipeAux none [] [] s = .ok segs := by
  unfold splitByPipe at h
  cases haux : splitByPipeAux none [] [] s with
  | error e2 =>
      rw [haux] at h
      dsimp only at h
      exact Except.noConfusion h
  | ok segs2 =>
      rw [haux] at h
      dsimp only at h
      by_cases hlen : segs2.length < 2
      · rw [if_pos hlen] at h
        exact Except.noConfusion h
      · rw [if_neg hlen] at h
        injection h with h2
        subst h2
        exact ⟨Nat.le_of_not_lt hlen, rfl⟩

theorem splitByPipe_ok_trim_seg {s : Chars} {segs : List Chars}
    (h : splitByPipe s = .ok segs) : ∀ x ∈ segs, trim x = x :=
  splitByPipeAux_ok_trim none [] [] s segs (by intro x hx; cases hx)
    (splitByPipe_ok_elim h).2

theorem splitByPipe_trim_ne_nil {s : Chars} {segs : List Chars}
    (h : splitByPipe s = .ok segs) : trim s ≠ [] := by
  intro htrim
  have hws := trim_eq_nil_iff.mp htrim
  have haux := splitByPipeAux_all_ws none [] [] s hws (by intro c hc; cases hc)
  unfold splitByPipe at h
  rw [haux] at h
  dsimp only at h
  rw [if_pos (by decide : ([] : List Chars).length < 2)] at h
  exact Except.noConfusion h

/-! ### Lemmas about `parseSegment` -/

theorem parseSegment_ok_facts {seg k v : Chars} (h : parseSegment seg = .ok (k, v)) :
    k ∈ ALL_KEYWORDS ∧ k = firstWord (trim seg) := by
  simp only [parseSegment] at h
  split at h
  · exact Except.noConfusion h
  · split at h
    · exact Except.noConfusion h
    · rename_i p kw val heq
      split at h
      · rename_i hmem
        split at h
        · exact Except.noConfusion h
        · split at h
          · split at h
            · injection h with h2
              injection h2 with hk hv
              subst hk
              exact ⟨hmem, (splitAtFirstSpace_eq heq).2.2⟩
            · split at h <;> exact Except.noConfusion h
          · split at h
            · split at h
              · exact Except.noConfusion h
              · split at h
                · injection h with h2
                  injection h2 with hk hv
                  subst hk
                  exact ⟨hmem, (splitAtFirstSpace_eq heq).2.2⟩
                · exact Except.noConfusion h
            · injection h with h2
              injection h2 with hk hv
              subst hk
              exact ⟨hmem, (splitAtFirstSpace_eq heq).2.2⟩
      · split at h <;> exact Except.noConfusion h

theorem parseSegment_error_cases {seg e : Chars} (h : parseSegment seg = .error e) :
    e = emptySegMsg ∨ e = missingSpaceMsg ∨ e = multiSpaceMsg ∨ e = upperMethodMsg ∨
    e = invalidMethodMsg ∨ e = urlEmptyMsg ∨ e = urlSchemeMsg ∨ e = upperKwMsg ∨
    ∃ k2, e = invalidKwMsg k2 := by
  simp only [parseSegment] at h
  repeat' split at h
  all_goals first
    | exact Except.noConfusion h
    | (injection h with h2; subst h2; tauto)

theorem trim_val_ne_nil {seg kw val : Chars}
    (hsp : splitAtFirstSpace (trim seg) = some (kw, val)) : trim val ≠ [] := by
  intro htv
  obtain ⟨heq, _, _⟩ := splitAtFirstSpace_eq hsp
  have hvws : ∀ c ∈ val, isWs c := trim_eq_nil_iff.mp htv
  cases hval : val with
  | nil =>
      have hlast : (trim seg).getLast? = some ' ' := by
        rw [heq, hval]
        rw [List.getLast?_append_of_ne_nil _ (by simp : [' '] ≠ [])]
        rfl
      exact absurd (trim_getLast_not_ws hlast) (by decide)
  | cons c0 rest0 =>
      have hne : val ≠ [] := by rw [hval]; exact List.cons_ne_nil _ _
      have hlast2 : ∃ d, val.getLast? = some d := by
        rw [hval]
        exact ⟨(c0 :: rest0).getLast (List.cons_ne_nil _ _),
          List.getLast?_eq_getLast_of_ne_nil _⟩
      obtain ⟨d, hd⟩ := hlast2
      have hmem : d ∈ val := by
        obtain ⟨h3, h4⟩ := List.mem_getLast?_eq_getLast (hd ▸ rfl : d ∈ val.getLast?)
        rw [h4]
        exact List.getLast_mem h3
      have hlast3 : (trim seg).getLast? = some d := by
        rw [heq, List.getLast?_append_of_ne_nil _ (List.cons_ne_nil ' ' val)]
        rw [List.getLast?_cons, hd]
        rfl
      have := trim_getLast_not_ws hlast3
      rw [hvws d hmem] at this
      exact Bool.noConfusion this

theorem parseSegment_ne_urlEmpty (seg : Chars) : parseSegment seg ≠ .error urlEmptyMsg := by
  intro h
  simp only [parseSegment] at h
  split at h
  · injection h with h2
    exact absurd h2 (by decide)
  · split at h
    · injection h with h2
      exact absurd h2 (by decide)
    · rename_i p kw val heq
      split at h
      · split at h
        · injection h with h2
          exact absurd h2 (by decide)
        · split at h
          · split at h
            · exact Except.noConfusion h
            · split at h
              · injection h with h2
                exact absurd h2 (by decide)
              · injection h with h2
                exact absurd h2 (by decide)
          · split at h
            · split at h
              · rename_i htv
                exact trim_val_ne_nil heq htv
              · split at h
                · exact Except.noConfusion h
                · injection h with h2
                  exact absurd h2 (by decide)
            · exact Except.noConfusion h
      · split at h
        · injection h with h2
          exact absurd h2 (by decide)
        · injection h with h2
          exact absurd h2 (invalidKwMsg_ne_urlEmpty _)

/-! ### Lemmas about the segment loop and the validators -/

theorem parseAllSegments_error_cases :
    ∀ (segs : List Chars) (pairs : List (Chars × Chars)) (e : Chars),
      parseAllSegments segs pairs = .error e →
        (∃ seg ∈ segs, parseSegment seg = .error e) ∨ ∃ k, e = dupKwMsg k := by
  intro segs
  induction segs with
  | nil =>
      intro pairs e h
      exact Except.noConfusion h
  | cons seg rest ih =>
      intro pairs e h
      simp only [parseAllSegments] at h
      cases hps : parseSegment seg with
      | error e2 =>
          rw [hps] at h
          dsimp only at h
          injection h with h2
          subst h2
          exact Or.inl ⟨seg, List.mem_cons_self _ _, hps⟩
      | ok kv =>
          obtain ⟨k, v⟩ := kv
          rw [hps] at h
          dsimp only at h
          split at h
          · injection h with h2
            exact Or.inr ⟨k, h2.symm⟩
          · rcases ih _ e h with ⟨seg2, hm, hp⟩ | h2
            · exact Or.inl ⟨seg2, List.mem_cons_of_mem _ hm, hp⟩
            · exact Or.inr h2

theorem parseAllSegments_ok_mem :
    ∀ (segs : List Chars) (pairs pairs2 : List (Chars × Chars)),
      parseAllSegments segs pairs = .ok pairs2 →
        ∀ seg ∈ segs, ∃ kv, parseSegment seg = .ok kv := by
  intro segs
  induction segs with
  | nil =>
      intro pairs pairs2 _ seg hm
      cases hm
  | cons seg rest ih =>
      intro pairs pairs2 h seg2 hm
      simp only [parseAllSegments] at h
      cases hps : parseSegment seg with
      | error e2 =>
          rw [hps] at h
          exact Except.noConfusion h
      | ok kv =>
          obtain ⟨k, v⟩ := kv
          rw [hps] at h
          dsimp only at h
          split at h
          · exact Except.noConfusion h
          · rcases List.mem_cons.mp hm with h3 | h3
            · exact ⟨(k, v), h3 ▸ hps⟩
            · exact ih _ _ h seg2 h3

theorem validateRequiredKeywords_error_cases {pairs : List (Chars × Chars)} {e : Chars}
    (h : validateRequiredKeywords pairs = .error e) :
    e = missingReqKwMsg ("HTTP".data) ∨ e = missingReqKwMsg ("URL".data) := by
  unfold validateRequiredKeywords REQUIRED_KEYWORDS at h
  simp only [validateRequiredKeywordsAux] at h
  split at h
  · split at h
    · exact Except.noConfusion h
    · injection h with h2
      exact Or.inr h2.symm
  · injection h with h2
    exact Or.inl h2.symm

/-! ### Lemmas about the JSON sections -/

theorem parseJsonSection_error_eq {v kw e : Chars}
    (h : parseJsonSection v kw = .error e) : e = jsonMsg kw := by
  unfold parseJsonSection at h
  split at h
  · split at h
    · exact Except.noConfusion h
    · injection h with h2
      exact h2.symm
  · injection h with h2
    exact h2.symm

theorem parseJsonSection_error_bad {v kw e : Chars}
    (h : parseJsonSection v kw = .error e) : jsonSectionBad v := by
  unfold parseJsonSection at h
  split at h
  · rename_i j hj
    split at h
    · exact Except.noConfusion h
    · rename_i hobj
      exact Or.inr ⟨j, hj, by revert hobj; cases j.isObj <;> simp⟩
  · rename_i hnone
    exact Or.inl hnone

theorem parseJsonSection_ok_isObj {v kw : Chars} {j : Json}
    (h : parseJsonSection v kw = .ok j) : ∃ f, j = .obj f := by
  unfold parseJsonSection at h
  split at h
  · rename_i j2 hj
    split at h
    · rename_i hobj
      injection h with h2
      subst h2
      cases j2 with
      | obj f => exact ⟨f, rfl⟩
      | null => exact Bool.noConfusion hobj
      | bool b => exact Bool.noConfusion hobj
      | num l => exact Bool.noConfusion hobj
      | str s => exact Bool.noConfusion hobj
      | arr a => exact Bool.noConfusion hobj
    · exact Except.noConfusion h
  · exact Except.noConfusion h

theorem parseJsonSection_of_bad {v kw : Chars} (hbad : jsonSectionBad v) :
    parseJsonSection v kw = .error (jsonMsg kw) := by
  unfold parseJsonSection
  rcases hbad with hnone | ⟨j, hj, hobj⟩
  · rw [hnone]
  · rw [hj]
    dsimp only
    rw [if_neg (by rw [hobj]; exact Bool.false_ne_true)]

theorem getSectionJson_error {pairs : List (Chars × Chars)} {kw e : Chars}
    (h : getSectionJson pairs kw = .error e) :
    e = jsonMsg kw ∧ ∃ v, lookupKw pairs kw = some v ∧ v ≠ [] ∧ jsonSectionBad v := by
  unfold getSectionJson at h
  split at h
  · rename_i v hv
    split at h
    · exact Except.noConfusion h
    · rename_i hne
      refine ⟨parseJsonSection_error_eq h, v, hv, ?_, parseJsonSection_error_bad h⟩
      intro hnil
      rw [hnil] at hne
      exact hne rfl
  · exact Except.noConfusion h

theorem getSectionJson_ok_isObj {pairs : List (Chars × Chars)} {kw : Chars} {j : Json}
    (h : getSectionJson pairs kw = .ok j) : ∃ f, j = .obj f := by
  unfold getSectionJson at h
  split at h
  · split at h
    · injection h with h2
      exact ⟨[], h2.symm⟩
    · exact parseJsonSection_ok_isObj h
  · injection h with h2
    exact ⟨[], h2.symm⟩

theorem getSectionJson_none {pairs : List (Chars × Chars)} {kw : Chars}
    (h : lookupKw pairs kw = none) : getSectionJson pairs kw = .ok (.obj []) := by
  unfold getSectionJson
  rw [h]

theorem getSectionJson_bad {pairs : List (Chars × Chars)} {kw v : Chars}
    (hv : lookupKw pairs kw = some v) (hne : v ≠ []) (hbad : jsonSectionBad v) :
    getSectionJson pairs kw = .error (jsonMsg kw) := by
  unfold getSectionJson
  rw [hv]
  dsimp only
  rw [if_neg (by simp [hne]), parseJsonSection_of_bad hbad]

/-! ### Decomposition of `parseReqline` failures -/

theorem parseReqline_error_decomp {s e : Chars} (h : parseReqline s = .error e) :
    e = emptyMsg ∨ splitByPipe s = .error e ∨
    (∃ segs, splitByPipe s = .ok segs ∧
      (parseAllSegments segs [] = .error e ∨
       (∃ pairs, parseAllSegments segs [] = .ok pairs ∧
         (validateKeywordOrder segs = .error e ∨
          (validateKeywordOrder segs = .ok () ∧
            (validateRequiredKeywords pairs = .error e ∨
             (validateRequiredKeywords pairs = .ok () ∧
               (getSectionJson pairs ("HEADERS".data) = .error e ∨
                (∃ jh, getSectionJson pairs ("HEADERS".data) = .ok jh ∧
                  (getSectionJson pairs ("QUERY".data) = .error e ∨
                   (∃ jq, getSectionJson pairs ("QUERY".data) = .ok jq ∧
                     getSectionJson pairs ("BODY".data) = .error e))))))))))) := by
  unfold parseReqline at h
  split at h
  · injection h with h2
    exact Or.inl h2.symm
  · cases hsplit : splitByPipe s with
    | error e2 =>
        rw [hsplit] at h
        dsimp only at h
        injection h with h2
        subst h2
        exact Or.inr (Or.inl rfl)
    | ok segs =>
        rw [hsplit] at h
        dsimp only at h
        refine Or.inr (Or.inr ⟨segs, rfl, ?_⟩)
        cases hloop : parseAllSegments segs [] with
        | error e2 =>
            rw [hloop] at h
            dsimp only at h
            injection h with h2
            subst h2
            exact Or.inl rfl
        | ok pairs =>
            rw [hloop] at h
            dsimp only at h
            refine Or.inr ⟨pairs, rfl, ?_⟩
            cases horder : validateKeywordOrder segs with
            | error e2 =>
                rw [horder] at h
                dsimp only at h
                injection h with h2
                subst h2
                exact Or.inl rfl
            | ok u =>
                cases u
                rw [horder] at h
                dsimp only at h
                refine Or.inr ⟨rfl, ?_⟩
                cases hreq : validateRequiredKeywords pairs with
                | error e2 =>
                    rw [hreq] at h
                    dsimp only at h
                    injection h with h2
                    subst h2
                    exact Or.inl rfl
                | ok u2 =>
                    cases u2
                    rw [hreq] at h
                    dsimp only at h
                    refine Or.inr ⟨rfl, ?_⟩
                    cases hhd : getSectionJson pairs ("HEADERS".data) with
                    | error e2 =>
                        rw [hhd] at h
                        dsimp only at h
                        injection h with h2
                        subst h2
                        exact Or.inl rfl
                    | ok jh =>
                        rw [hhd] at h
                        dsimp only at h
                        refine Or.inr ⟨jh, rfl, ?_⟩
                        cases hq : getSectionJson pairs ("QUERY".data) with
                        | error e2 =>
                            rw [hq] at h
                            dsimp only at h
                            injection h with h2
                            subst h2
                            exact Or.inl rfl
                        | ok jq =>
                            rw [hq] at h
                            dsimp only at h
                            refine Or.inr ⟨jq, rfl, ?_⟩
                            cases hb : getSectionJson pairs ("BODY".data) with
                            | error e2 =>
                                rw [hb] at h
                                dsimp only at h
                                injection h with h2
                                subst h2
                                exact rfl
                            | ok jb =>
                                rw [hb] at h
                                dsimp only at h
                                exact Except.noConfusion h

theorem validateKeywordOrder_error_cases {segs : List Chars} {e : Chars}
    (hlen : 2 ≤ segs.length)
    (hkw : ∀ seg ∈ segs, ∃ kv, parseSegment seg = .ok kv)
    (htr : ∀ seg ∈ segs, trim seg = seg)
    (h : validateKeywordOrder segs = .error e) :
    e = httpFirstMsg ∨ e = missingReqKwMsg ("URL".data) := by
  cases segs with
  | nil => exact absurd hlen (by decide)
  | cons s0 tail =>
      cases tail with
      | nil => exact absurd hlen (by simp)
      | cons s1 rest =>
          simp only [validateKeywordOrder] at h
          split at h
          · injection h with h2
            exact Or.inl h2.symm
          · split at h
            · split at h
              · injection h with h2
                exact Or.inr h2.symm
              · rename_i hnotin
                obtain ⟨kv, hkv⟩ := hkw s1 (List.mem_cons_of_mem _ (List.mem_cons_self _ _))
                obtain ⟨k, v⟩ := kv
                obtain ⟨hmem, hfw⟩ := parseSegment_ok_facts hkv
                rw [htr s1 (List.mem_cons_of_mem _ (List.mem_cons_self _ _))] at hfw
                exact absurd (hfw ▸ hmem) hnotin
            · exact Except.noConfusion h

/-! ### Claim theorems -/

/-- C3: parsing the exact statement `HTTP GET | URL https://a.com/x | QUERY`
followed by the JSON object binding k to 1 succeeds and returns exactly
method GET, that url, empty headers, the query object with k bound to 1, and
an empty body. -/
theorem C3_roundtrip_example :
    parseReqline ("HTTP GET | URL https://a.com/x | QUERY \x7b\"k\":1\x7d".data) =
      .ok { method := "GET".data, url := "https://a.com/x".data,
            headers := .obj [], query := .obj [("k".data, .num ("1".data))],
            body := .obj [] } := rfl

/-- C2: code behaviour at the failing inputs.  A pipe preceded (or followed)
by two spaces passes the adjacency-only spacing check and the statement
parses successfully, while the repository's tests and the spec require the
pipe-spacing error there; a pipe with no space before it does fail with the
pipe-spacing error. -/
theorem C2_multi_space_pipe_accepted :
    parseReqline ("HTTP GET  | URL https://example.com".data) =
      .ok { method := "GET".data, url := "https://example.com".data,
            headers := .obj [], query := .obj [], body := .obj [] } ∧
    parseReqline ("HTTP GET |  URL https://example.com".data) =
      .ok { method := "GET".data, url := "https://example.com".data,
            headers := .obj [], query := .obj [], body := .obj [] } ∧
    parseReqline ("HTTP GET| URL https://a.com".data) = .error pipeMsg :=
  ⟨rfl, rfl, rfl⟩

/-- C1 counterexample: with HTTP first and the recognized keyword HTTP again
second, the duplicate-keyword error fires during the segment loop, before the
keyword-order check, so the parse does not fail with the missing-URL error
the claim requires. -/
theorem C1_counterexample_duplicate :
    parseReqline ("HTTP GET | HTTP POST".data) = .error (dupKwMsg ("HTTP".data)) ∧
    dupKwMsg ("HTTP".data) ≠ missingReqKwMsg ("URL".data) := ⟨rfl, by decide⟩

/-- C1 amended: if the statement splits into segments, the whole segment loop
succeeds (every segment classifiable and no duplicate keyword), the first
segment's keyword is HTTP and the second's is a recognized keyword other than
URL, then parseReqline fails with the missing-URL error. -/
theorem C1_amended_missing_url (s s0 s1 : Chars) (rest : List Chars)
    (pairs : List (Chars × Chars))
    (hsplit : splitByPipe s = .ok (s0 :: s1 :: rest))
    (hloop : parseAllSegments (s0 :: s1 :: rest) [] = .ok pairs)
    (h0 : firstWord s0 = "HTTP".data)
    (h1mem : firstWord s1 ∈ ALL_KEYWORDS)
    (h1ne : firstWord s1 ≠ "URL".data) :
    parseReqline s = .error (missingReqKwMsg ("URL".data)) := by
  have htrim := splitByPipe_trim_ne_nil hsplit
  have horder : validateKeywordOrder (s0 :: s1 :: rest) =
      .error (missingReqKwMsg ("URL".data)) := by
    simp only [validateKeywordOrder]
    rw [if_neg (fun hc => hc h0), if_pos h1ne, if_pos h1mem]
  unfold parseReqline
  rw [if_neg htrim, hsplit]
  dsimp only
  rw [hloop]
  dsimp only
  rw [horder]

/-- C1 amended, witness. -/
theorem C1_amended_missing_url_witness :
    parseReqline ("HTTP GET | HEADERS \x7b\"a\": 1\x7d".data) =
      .error (missingReqKwMsg ("URL".data)) :=
  C1_amended_missing_url _ _ _ _ _ rfl rfl rfl (by decide) (by decide)

/-- C6 counterexample: the input `HTTP GET` (only URL absent) fails in the
segmenter with the generic missing-sections error, not with the URL-specific
missing error the claim requires. -/
theorem C6_counterexample_generic :
    parseReqline ("HTTP GET".data) = .error missingSectionsMsg ∧
    missingSectionsMsg ≠ missingReqKwMsg ("URL".data) := ⟨rfl, by decide⟩

/-- C6 amended: an input with fewer than two segments (such as `HTTP GET`)
fails with the generic missing-sections error; with two classifiable
segments, URL absent from the second position yields the URL-specific missing
error, HTTP absent from the first position yields the must-be-first error,
and both keywords absent also yields the must-be-first error, never the
generic one. -/
theorem C6_amended_missing_classification :
    parseReqline ("HTTP GET".data) = .error missingSectionsMsg ∧
    parseReqline ("HTTP GET | QUERY \x7b\"b\": 2\x7d".data) =
      .error (missingReqKwMsg ("URL".data)) ∧
    parseReqline ("URL https://a.com | HTTP GET".data) = .error httpFirstMsg ∧
    parseReqline ("HEADERS \x7b\"a\": 1\x7d | QUERY \x7b\"b\": 2\x7d".data) =
      .error httpFirstMsg :=
  ⟨rfl, rfl, rfl, rfl⟩

/-- C7 counterexample: a lowercase keyword followed by two spaces fails with
the keyword-casing error, not the multiple-spaces error: the keyword
legality and casing checks run before the multiple-spaces check, contrary to
the claim's step order. -/
theorem C7_counterexample_casing_first :
    parseSegment ("http  GET".data) = .error upperKwMsg ∧
    upperKwMsg ≠ multiSpaceMsg := ⟨rfl, by decide⟩

/-- C7 amended: when the candidate keyword is a recognized keyword (exact
casing) and the candidate value begins with an additional space,
classification fails with the multiple-spaces error; for an unrecognized or
ill-cased keyword the keyword error takes precedence. -/
theorem C7_amended_multi_space (seg kw v : Chars)
    (hsplit : trim seg = kw ++ ' ' :: ' ' :: v)
    (hkw : kw ∈ ALL_KEYWORDS) :
    parseSegment seg = .error multiSpaceMsg := by
  have hnosp : ' ' ∉ kw := by
    have hcases : kw = "HTTP".data ∨ kw = "URL".data ∨ kw = "HEADERS".data ∨
        kw = "QUERY".data ∨ kw = "BODY".data := by
      simpa [ALL_KEYWORDS, REQUIRED_KEYWORDS, OPTIONAL_KEYWORDS] using hkw
    rcases hcases with h | h | h | h | h <;> (rw [h]; decide)
  simp only [parseSegment]
  rw [hsplit]
  rw [if_neg (by simp)]
  rw [splitAtFirstSpace_append kw (' ' :: v) hnosp]
  dsimp only
  rw [if_pos hkw, if_pos (show ((' ' :: v).head? = some ' ') from rfl)]

/-- C7 amended, witness. -/
theorem C7_amended_multi_space_witness :
    parseSegment ("URL  https://x".data) = .error multiSpaceMsg :=
  C7_amended_multi_space _ ("URL".data) ("https://x".data) rfl (by decide)

/-- C9 counterexample: a content-type header present under the casing
CONTENT-TYPE is present case-insensitively, yet the default Content-Type is
still added for a POST with a non-empty body — the presence check is not
case-insensitive. -/
theorem C9_counterexample_casing :
    hasHeaderCI [(("CONTENT-TYPE".data), Json.str ("text/plain".data))]
        ("Content-Type".data) = true ∧
    axiosConfigHeaders ("POST".data)
        [(("CONTENT-TYPE".data), Json.str ("text/plain".data))]
        [(("a".data), Json.num ("1".data))] =
      [(("CONTENT-TYPE".data), Json.str ("text/plain".data)),
       (("Content-Type".data), Json.str ("application/json".data))] :=
  ⟨rfl, rfl⟩

/-- C9 amended: for a POST with a non-empty body the default Content-Type is
suppressed exactly when one of the two spellings `Content-Type` or
`content-type` is present and truthy; otherwise the default is added, and for
any method other than POST the headers are left unchanged. -/
theorem C9_amended_exact_spellings (h b : List (Chars × Json)) (hb : b ≠ []) :
    ((headerTruthy h ("Content-Type".data) = true ∨
        headerTruthy h ("content-type".data) = true) →
      axiosConfigHeaders ("POST".data) h b = h) ∧
    (headerTruthy h ("Content-Type".data) = false →
      headerTruthy h ("content-type".data) = false →
      axiosConfigHeaders ("POST".data) h b =
        setKey h ("Content-Type".data) (.str ("application/json".data))) ∧
    (∀ m : Chars, m ≠ "POST".data → axiosConfigHeaders m h b = h) := by
  have hlen : 0 < b.length := by
    cases b with
    | nil => exact absurd rfl hb
    | cons x t => simp
  refine ⟨?_, ?_, ?_⟩
  · intro hct
    rcases hct with hA | hB
    · simp [axiosConfigHeaders, hlen, hA]
    · simp [axiosConfigHeaders, hlen, hB]
  · intro hA hB
    simp [axiosConfigHeaders, hlen, hA, hB]
  · intro m hm
    simp [axiosConfigHeaders, hm]

/-- C9 amended, witness. -/
theorem C9_amended_exact_spellings_witness :
    axiosConfigHeaders ("POST".data) [] [(("a".data), Json.num ("1".data))] =
      setKey [] ("Content-Type".data) (.str ("application/json".data)) :=
  (C9_amended_exact_spellings [] [(("a".data), Json.num ("1".data))]
    (List.cons_ne_nil _ _)).2.1 rfl rfl

/-- C10: parseReqline never fails with the wrong-order error `URL keyword
must be second`: when the second segment's keyword is unrecognized, segment
classification has already failed earlier in the pipeline, so the guarded
branch of validateKeywordOrder is unreachable. -/
theorem C10_urlSecond_unreachable (s : Chars) :
    parseReqline s ≠ .error urlSecondMsg := by
  intro h
  rcases parseReqline_error_decomp h with h1 | h2 | ⟨segs, hsplit, hrest⟩
  · exact absurd h1 (by decide)
  · rcases splitByPipe_error_cases h2 with h3 | h3 <;> exact absurd h3 (by decide)
  · rcases hrest with hloope | ⟨pairs, hloop, hrest2⟩
    · rcases parseAllSegments_error_cases segs [] _ hloope with ⟨seg, hm, hps⟩ | ⟨k, hk⟩
      · rcases parseSegment_error_cases hps with
          h3 | h3 | h3 | h3 | h3 | h3 | h3 | h3 | ⟨k2, h3⟩
        all_goals first
          | exact absurd h3 (by decide)
          | exact invalidKwMsg_ne_urlSecond k2 h3.symm
      · exact dupKwMsg_ne_urlSecond k hk.symm
    · rcases hrest2 with horder | ⟨horder, hrest3⟩
      · have hlen := (splitByPipe_ok_elim hsplit).1
        have hkw := parseAllSegments_ok_mem segs [] pairs hloop
        have htr := splitByPipe_ok_trim_seg hsplit
        rcases validateKeywordOrder_error_cases hlen hkw htr horder with h3 | h3
        · exact absurd h3 (by decide)
        · exact missingReqKwMsg_ne_urlSecond _ h3.symm
      · rcases hrest3 with hreq | ⟨hreq, hrest4⟩
        · rcases validateRequiredKeywords_error_cases hreq with h3 | h3 <;>
            exact missingReqKwMsg_ne_urlSecond _ h3.symm
        · rcases hrest4 with hhd | ⟨jh, hhd, hrest5⟩
          · exact urlSecondMsg_ne_jsonMsg _ (getSectionJson_error hhd).1
          · rcases hrest5 with hq | ⟨jq, hq, hb⟩
            · exact urlSecondMsg_ne_jsonMsg _ (getSectionJson_error hq).1
            · exact urlSecondMsg_ne_jsonMsg _ (getSectionJson_error hb).1

/-- C10, witness at a concrete input. -/
theorem C10_urlSecond_unreachable_witness :
    parseReqline ("HTTP GET | URL https://a.com".data) ≠ .error urlSecondMsg :=
  C10_urlSecond_unreachable _

theorem parseReqline_ne_urlEmpty (s : Chars) : parseReqline s ≠ .error urlEmptyMsg := by
  intro h
  rcases parseReqline_error_decomp h with h1 | h2 | ⟨segs, hsplit, hrest⟩
  · exact absurd h1 (by decide)
  · rcases splitByPipe_error_cases h2 with h3 | h3 <;> exact absurd h3 (by decide)
  · rcases hrest with hloope | ⟨pairs, hloop, hrest2⟩
    · rcases parseAllSegments_error_cases segs [] _ hloope with ⟨seg, hm, hps⟩ | ⟨k, hk⟩
      · exact parseSegment_ne_urlEmpty seg hps
      · exact dupKwMsg_ne_urlEmpty k hk.symm
    · rcases hrest2 with horder | ⟨horder, hrest3⟩
      · have hlen := (splitByPipe_ok_elim hsplit).1
        have hkw := parseAllSegments_ok_mem segs [] pairs hloop
        have htr := splitByPipe_ok_trim_seg hsplit
        rcases validateKeywordOrder_error_cases hlen hkw htr horder with h3 | h3
        · exact absurd h3 (by decide)
        · exact missingReqKwMsg_ne_urlEmpty _ h3.symm
      · rcases hrest3 with hreq | ⟨hreq, hrest4⟩
        · rcases validateRequiredKeywords_error_cases hreq with h3 | h3 <;>
            exact missingReqKwMsg_ne_urlEmpty _ h3.symm
        · rcases hrest4 with hhd | ⟨jh, hhd, hrest5⟩
          · exact urlEmptyMsg_ne_jsonMsg _ (getSectionJson_error hhd).1
          · rcases hrest5 with hq | ⟨jq, hq, hb⟩
            · exact urlEmptyMsg_ne_jsonMsg _ (getSectionJson_error hq).1
            · exact urlEmptyMsg_ne_jsonMsg _ (getSectionJson_error hb).1

/-- C8 counterexample: there is no input at all on which parseReqline fails
with the URL-empty error — the failure class claimed reachable is dead
code. -/
theorem C8_counterexample_unreachable :
    ¬ ∃ s : Chars, parseReqline s = .error urlEmptyMsg :=
  fun hex => parseReqline_ne_urlEmpty hex.choose hex.choose_spec

/-- C8 amended: a URL value that is empty after trimming cannot reach the
URL-empty check, because segments are trimmed before keyword/value splitting;
the statement `HTTP GET | URL ` (trailing space) instead fails with the
missing-space error, and no input whatsoever produces the URL-empty error. -/
theorem C8_amended_dead_code :
    parseReqline ("HTTP GET | URL ".data) = .error missingSpaceMsg ∧
    ∀ s : Chars, parseReqline s ≠ .error urlEmptyMsg :=
  ⟨rfl, parseReqline_ne_urlEmpty⟩

/-- C4: whenever parseReqline succeeds, the headers, query and body fields
are JSON objects — never arrays, primitives or null — and each field is the
empty object whenever its section keyword was not recorded from the input. -/
theorem C4_sections_are_objects (s : Chars) (r : ParsedRequest)
    (h : parseReqline s = .ok r) :
    (∃ f, r.headers = Json.obj f) ∧ (∃ f, r.query = Json.obj f) ∧
    (∃ f, r.body = Json.obj f) ∧
    (∀ segs pairs, splitByPipe s = .ok segs → parseAllSegments segs [] = .ok pairs →
      (lookupKw pairs ("HEADERS".data) = none → r.headers = Json.obj []) ∧
      (lookupKw pairs ("QUERY".data) = none → r.query = Json.obj []) ∧
      (lookupKw pairs ("BODY".data) = none → r.body = Json.obj [])) := by
  unfold parseReqline at h
  split at h
  · exact Except.noConfusion h
  · cases hsplit : splitByPipe s with
    | error e2 =>
        rw [hsplit] at h
        exact Except.noConfusion h
    | ok segs0 =>
        rw [hsplit] at h
        dsimp only at h
        cases hloop : parseAllSegments segs0 [] with
        | error e2 =>
            rw [hloop] at h
            exact Except.noConfusion h
        | ok pairs0 =>
            rw [hloop] at h
            dsimp only at h
            cases horder : validateKeywordOrder segs0 with
            | error e2 =>
                rw [horder] at h
                exact Except.noConfusion h
            | ok u =>
                cases u
                rw [horder] at h
                dsimp only at h
                cases hreq : validateRequiredKeywords pairs0 with
                | error e2 =>
                    rw [hreq] at h
                    exact Except.noConfusion h
                | ok u2 =>
                    cases u2
                    rw [hreq] at h
                    dsimp only at h
                    cases hhd : getSectionJson pairs0 ("HEADERS".data) with
                    | error e2 =>
                        rw [hhd] at h
                        exact Except.noConfusion h
                    | ok jh =>
                        rw [hhd] at h
                        dsimp only at h
                        cases hq : getSectionJson pairs0 ("QUERY".data) with
                        | error e2 =>
                            rw [hq] at h
                            exact Except.noConfusion h
                        | ok jq =>
                            rw [hq] at h
                            dsimp only at h
                            cases hb : getSectionJson pairs0 ("BODY".data) with
                            | error e2 =>
                                rw [hb] at h
                                exact Except.noConfusion h
                            | ok jb =>
                                rw [hb] at h
                                dsimp only at h
                                injection h with h2
                                subst h2
                                refine ⟨getSectionJson_ok_isObj hhd,
                                  getSectionJson_ok_isObj hq,
                                  getSectionJson_ok_isObj hb, ?_⟩
                                intro segs pairs hs hp
                                injection hs with hseq
                                subst hseq
                                have hpeq : pairs = pairs0 :=
                                  (Except.ok.inj (hloop.symm.trans hp)).symm
                                subst hpeq
                                refine ⟨?_, ?_, ?_⟩ <;> intro hnone
                                · exact Except.ok.inj
                                    (hhd.symm.trans (getSectionJson_none hnone))
                                · exact Except.ok.inj
                                    (hq.symm.trans (getSectionJson_none hnone))
                                · exact Except.ok.inj
                                    (hb.symm.trans (getSectionJson_none hnone))

/-- C4, witness at a concrete input. -/
theorem C4_sections_are_objects_witness :
    ∃ f, (ParsedRequest.mk ("GET".data) ("https://example.com".data)
        (Json.obj []) (Json.obj []) (Json.obj [])).headers = Json.obj f :=
  (C4_sections_are_objects ("HTTP GET | URL https://example.com".data)
    (ParsedRequest.mk ("GET".data) ("https://example.com".data)
      (Json.obj []) (Json.obj []) (Json.obj [])) rfl).1

/-- C5: each optional section whose recorded value fails to decode as JSON or
decodes to a non-object makes parseReqline fail with exactly the
section-named shape-error message (the earliest bad section in the fixed
HEADERS, QUERY, BODY processing order names the error), and conversely a
section-named shape error is only ever produced by that section being present
with a bad value — never by an unrelated failure. -/
theorem C5_json_section_error_mapping :
    (∀ (s : Chars) (segs : List Chars) (pairs : List (Chars × Chars)) (v : Chars),
      splitByPipe s = .ok segs → parseAllSegments segs [] = .ok pairs →
      validateKeywordOrder segs = .ok () → validateRequiredKeywords pairs = .ok () →
      lookupKw pairs ("HEADERS".data) = some v → v ≠ [] → jsonSectionBad v →
      parseReqline s = .error (jsonMsg ("HEADERS".data))) ∧
    (∀ (s : Chars) (segs : List Chars) (pairs : List (Chars × Chars)) (v : Chars),
      splitByPipe s = .ok segs → parseAllSegments segs [] = .ok pairs →
      validateKeywordOrder segs = .ok () → validateRequiredKeywords pairs = .ok () →
      (∃ jh, getSectionJson pairs ("HEADERS".data) = .ok jh) →
      lookupKw pairs ("QUERY".data) = some v → v ≠ [] → jsonSectionBad v →
      parseReqline s = .error (jsonMsg ("QUERY".data))) ∧
    (∀ (s : Chars) (segs : List Chars) (pairs : List (Chars × Chars)) (v : Chars),
      splitByPipe s = .ok segs → parseAllSegments segs [] = .ok pairs →
      validateKeywordOrder segs = .ok () → validateRequiredKeywords pairs = .ok () →
      (∃ jh, getSectionJson pairs ("HEADERS".data) = .ok jh) →
      (∃ jq, getSectionJson pairs ("QUERY".data) = .ok jq) →
      lookupKw pairs ("BODY".data) = some v → v ≠ [] → jsonSectionBad v →
      parseReqline s = .error (jsonMsg ("BODY".data))) ∧
    (∀ (s S : Chars), parseReqline s = .error (jsonMsg S) →
      ∃ segs pairs v, splitByPipe s = .ok segs ∧ parseAllSegments segs [] = .ok pairs ∧
        lookupKw pairs S = some v ∧ v ≠ [] ∧ jsonSectionBad v) := by
  refine ⟨?_, ?_, ?_, ?_⟩
  · intro s segs pairs v hsplit hloop horder hreq hv hne hbad
    have htrim := splitByPipe_trim_ne_nil hsplit
    unfold parseReqline
    rw [if_neg htrim, hsplit]
    dsimp only
    rw [hloop]
    dsimp only
    rw [horder]
    dsimp only
    rw [hreq]
    dsimp only
    rw [getSectionJson_bad hv hne hbad]
  · intro s segs pairs v hsplit hloop horder hreq hjh hv hne hbad
    obtain ⟨jh, hjh⟩ := hjh
    have htrim := splitByPipe_trim_ne_nil hsplit
    unfold parseReqline
    rw [if_neg htrim, hsplit]
    dsimp only
    rw [hloop]
    dsimp only
    rw [horder]
    dsimp only
    rw [hreq]
    dsimp only
    rw [hjh]
    dsimp only
    rw [getSectionJson_bad hv hne hbad]
  · intro s segs pairs v hsplit hloop horder hreq hjh hjq hv hne hbad
    obtain ⟨jh, hjh⟩ := hjh
    obtain ⟨jq, hjq⟩ := hjq
    have htrim := splitByPipe_trim_ne_nil hsplit
    unfold parseReqline
    rw [if_neg htrim, hsplit]
    dsimp only
    rw [hloop]
    dsimp only
    rw [horder]
    dsimp only
    rw [hreq]
    dsimp only
    rw [hjh]
    dsimp only
    rw [hjq]
    dsimp only
    rw [getSectionJson_bad hv hne hbad]
  · intro s S h
    rcases parseReqline_error_decomp h with h1 | h2 | ⟨segs, hsplit, hrest⟩
    · exact absurd h1.symm (emptyMsg_ne_jsonMsg S)
    · rcases splitByPipe_error_cases h2 with h3 | h3
      · exact absurd h3.symm (pipeMsg_ne_jsonMsg S)
      · exact absurd h3.symm (missingSectionsMsg_ne_jsonMsg S)
    · rcases hrest with hloope | ⟨pairs, hloop, hrest2⟩
      · rcases parseAllSegments_error_cases segs [] _ hloope with ⟨seg, hm, hps⟩ | ⟨k, hk⟩
        · rcases parseSegment_error_cases hps with
            h3 | h3 | h3 | h3 | h3 | h3 | h3 | h3 | ⟨k2, h3⟩
          · exact absurd h3.symm (emptySegMsg_ne_jsonMsg S)
          · exact absurd h3.symm (missingSpaceMsg_ne_jsonMsg S)
          · exact absurd h3.symm (multiSpaceMsg_ne_jsonMsg S)
          · exact absurd h3.symm (upperMethodMsg_ne_jsonMsg S)
          · exact absurd h3.symm (invalidMethodMsg_ne_jsonMsg S)
          · exact absurd h3.symm (urlEmptyMsg_ne_jsonMsg S)
          · exact absurd h3.symm (urlSchemeMsg_ne_jsonMsg S)
          · exact absurd h3.symm (upperKwMsg_ne_jsonMsg S)
          · exact absurd h3.symm (invalidKwMsg_ne_jsonMsg k2 S)
        · exact absurd hk.symm (dupKwMsg_ne_jsonMsg k S)
      · rcases hrest2 with horder | ⟨horder, hrest3⟩
        · have hlen := (splitByPipe_ok_elim hsplit).1
          have hkw := parseAllSegments_ok_mem segs [] pairs hloop
          have htr := splitByPipe_ok_trim_seg hsplit
          rcases validateKeywordOrder_error_cases hlen hkw htr horder with h3 | h3
          · exact absurd h3.symm (httpFirstMsg_ne_jsonMsg S)
          · exact absurd h3.symm (missingReqKwMsg_ne_jsonMsg _ S)
        · rcases hrest3 with hreq | ⟨hreq, hrest4⟩
          · rcases validateRequiredKeywords_error_cases hreq with h3 | h3 <;>
              exact absurd h3.symm (missingReqKwMsg_ne_jsonMsg _ S)
          · rcases hrest4 with hhd | ⟨jh, hhd, hrest5⟩
            · obtain ⟨heq, v, hv, hne, hbad⟩ := getSectionJson_error hhd
              have hS := jsonMsg_inj heq
              subst hS
              exact ⟨segs, pairs, v, hsplit, hloop, hv, hne, hbad⟩
            · rcases hrest5 with hq | ⟨jq, hq, hb⟩
              · obtain ⟨heq, v, hv, hne, hbad⟩ := getSectionJson_error hq
                have hS := jsonMsg_inj heq
                subst hS
                exact ⟨segs, pairs, v, hsplit, hloop, hv, hne, hbad⟩
              · obtain ⟨heq, v, hv, hne, hbad⟩ := getSectionJson_error hb
                have hS := jsonMsg_inj heq
                subst hS
                exact ⟨segs, pairs, v, hsplit, hloop, hv, hne, hbad⟩

/-- C5, witness: a QUERY section whose value is the JSON literal null. -/
theorem C5_json_section_error_mapping_witness :
    parseReqline ("HTTP GET | URL https://a.com | QUERY null".data) =
      .error (jsonMsg ("QUERY".data)) :=
  C5_json_section_error_mapping.2.1 _ _ _ ("null".data) rfl rfl rfl rfl
    ⟨Json.obj [], rfl⟩ rfl (by decide) (Or.inr ⟨Json.null, rfl, rfl⟩)

/-- C8 amended, witness at a concrete input. -/
theorem C8_amended_dead_code_witness :
    parseReqline ("HTTP GET | URL https://b.com".data) ≠ .error urlEmptyMsg :=
  C8_amended_dead_code.2 _
